import Mathlib

/-!
Verification of the data-shape and pipeline-consistency properties of the
ML-Methods-and-Tools notebooks.  The notebooks transform integer-encoded
movie reviews into fixed-width numeric representations and delegate model
training to an external deep-learning library.  We embed the repository's
own preprocessing code (`vectorize_sequences`) directly, and model the
external library operations the notebooks call (`pad_sequences`,
`Embedding`, `imdb.load_data`, `model.fit`) from the specification's
description of their contracts.  Numeric array entries are represented as
rationals: the only values that arise in the properties below are the exact
constants 0 and 1.
-/

/-- One step of the numpy fancy assignment `results[i, sequence] = 1.`:
set every position listed in `s` to 1, failing (as numpy does with an
IndexError) when a position is out of bounds for the row. -/
def setOnes (row : List ℚ) (s : List Nat) : Option (List ℚ) :=
  match s with
  | [] => some row
  | t :: ts => if t < row.length then setOnes (row.set t 1) ts else none

/-- Row `i` of `vectorize_sequences`: an all-zero row of width `dimension`
with the positions listed in `sequence` set to 1. -/
def vectorize_row (dimension : Nat) (sequence : List Nat) : Option (List ℚ) :=
  setOnes (List.replicate dimension 0) sequence

/-- Embedding of `vectorize_sequences` from the notebooks: allocate an
all-zero matrix with one row per input sequence and set, row by row, the
positions named by that row's token indices to 1.  An out-of-range token
index aborts the whole call, mirroring the numpy IndexError. -/
def vectorize_sequences (sequences : List (List Nat)) (dimension : Nat) :
    Option (List (List ℚ)) :=
  match sequences with
  | [] => some []
  | s :: rest =>
    (vectorize_row dimension s).bind fun r =>
      (vectorize_sequences rest dimension).map fun m => r :: m

/-- The multi-hot representation as the specification words it: a
vocabulary-size vector with 1.0 at indices present in the review and 0.0
elsewhere.  This is the spec-side definition that the code-side
`vectorize_row` is compared against. -/
def multiHotSpec (dimension : Nat) (sequence : List Nat) : List ℚ :=
  (List.range dimension).map fun j => if j ∈ sequence then 1 else 0

theorem setOnes_length (s : List Nat) :
    ∀ (row r : List ℚ), setOnes row s = some r → r.length = row.length := by
  induction s with
  | nil =>
    intro row r h
    simp only [setOnes, Option.some.injEq] at h
    simp [← h]
  | cons t ts ih =>
    intro row r h
    simp only [setOnes] at h
    split at h
    · have := ih _ _ h
      simpa using this
    · exact absurd h (by simp)

theorem setOnes_isSome (s : List Nat) :
    ∀ (row : List ℚ), (∀ t ∈ s, t < row.length) → (setOnes row s).isSome := by
  induction s with
  | nil => intro row _; simp [setOnes]
  | cons t ts ih =>
    intro row h
    have ht : t < row.length := h t (by simp)
    simp only [setOnes, ht, if_true]
    exact ih _ (fun u hu => by
      rw [List.length_set]
      exact h u (by simp [hu]))

theorem setOnes_eq_none (s : List Nat) :
    ∀ (row : List ℚ), (∃ t ∈ s, row.length ≤ t) → setOnes row s = none := by
  induction s with
  | nil => intro row h; rcases h with ⟨t, ht, _⟩; simp at ht
  | cons t ts ih =>
    intro row h
    by_cases hlt : t < row.length
    · rcases h with ⟨u, hu, hge⟩
      rcases List.mem_cons.mp hu with rfl | hu2
      · omega
      · simp only [setOnes, hlt, if_true]
        exact ih _ ⟨u, hu2, by simpa using hge⟩
    · simp [setOnes, hlt]

theorem setOnes_getElem (s : List Nat) :
    ∀ (row r : List ℚ), setOnes row s = some r →
      ∀ j (hj : j < r.length) (hj2 : j < row.length),
        r[j] = if j ∈ s then 1 else row[j] := by
  induction s with
  | nil =>
    intro row r h j hj hj2
    simp only [setOnes, Option.some.injEq] at h
    subst h
    simp
  | cons t ts ih =>
    intro row r h j hj hj2
    simp only [setOnes] at h
    split at h
    · have hj3 : j < (row.set t 1).length := by simpa using hj2
      have step := ih _ _ h j hj hj3
      rw [step, List.getElem_set]
      by_cases hts : j ∈ ts
      · simp [hts]
      · by_cases hjt : j = t
        · simp [hjt, hts]
        · have : ¬ t = j := fun hh => hjt hh.symm
          simp [hts, hjt, this]
    · exact absurd h (by simp)

theorem multiHotSpec_length (dimension : Nat) (sequence : List Nat) :
    (multiHotSpec dimension sequence).length = dimension := by
  simp [multiHotSpec]

theorem multiHotSpec_getElem (dimension : Nat) (sequence : List Nat)
    (j : Nat) (hj : j < (multiHotSpec dimension sequence).length) :
    (multiHotSpec dimension sequence)[j] =
      if j ∈ sequence then 1 else 0 := by
  simp [multiHotSpec]

theorem vectorize_row_eq (dimension : Nat) (sequence : List Nat)
    (h : ∀ t ∈ sequence, t < dimension) :
    vectorize_row dimension sequence = some (multiHotSpec dimension sequence) := by
  have hsome : (setOnes (List.replicate dimension 0) sequence).isSome :=
    setOnes_isSome sequence _ (fun t ht => by simpa using h t ht)
  rcases Option.isSome_iff_exists.mp hsome with ⟨r, hr⟩
  have hlen : r.length = dimension := by
    have := setOnes_length sequence _ _ hr
    simpa using this
  have hval : r = multiHotSpec dimension sequence := by
    apply List.ext_getElem
    · rw [hlen, multiHotSpec_length]
    · intro j hj1 hj2
      have hj2' : j < (List.replicate dimension (0 : ℚ)).length := by
        simpa using hlen ▸ hj1
      rw [setOnes_getElem sequence _ _ hr j hj1 hj2', multiHotSpec_getElem]
      simp
  rw [vectorize_row, hr, hval]

theorem vectorize_row_eq_none (dimension : Nat) (sequence : List Nat)
    (h : ∃ t ∈ sequence, dimension ≤ t) :
    vectorize_row dimension sequence = none := by
  apply setOnes_eq_none
  simpa using h

theorem vectorize_row_congr (dimension : Nat) (s1 s2 : List Nat)
    (h : ∀ t, t ∈ s1 ↔ t ∈ s2) :
    vectorize_row dimension s1 = vectorize_row dimension s2 := by
  by_cases hall : ∀ t ∈ s1, t < dimension
  · have hall2 : ∀ t ∈ s2, t < dimension := fun t ht => hall t ((h t).mpr ht)
    rw [vectorize_row_eq dimension s1 hall, vectorize_row_eq dimension s2 hall2]
    have : multiHotSpec dimension s1 = multiHotSpec dimension s2 := by
      unfold multiHotSpec
      apply List.map_congr_left
      intro j _
      simp [h j]
    rw [this]
  · push_neg at hall
    rcases hall with ⟨t, ht, hge⟩
    rw [vectorize_row_eq_none dimension s1 ⟨t, ht, hge⟩,
        vectorize_row_eq_none dimension s2 ⟨t, (h t).mp ht, hge⟩]

theorem vectorize_sequences_eq (sequences : List (List Nat)) (dimension : Nat)
    (h : ∀ s ∈ sequences, ∀ t ∈ s, t < dimension) :
    vectorize_sequences sequences dimension =
      some (sequences.map (multiHotSpec dimension)) := by
  induction sequences with
  | nil => simp [vectorize_sequences]
  | cons s rest ih =>
    have hs : ∀ t ∈ s, t < dimension := h s (by simp)
    have hrest : ∀ u ∈ rest, ∀ t ∈ u, t < dimension :=
      fun u hu => h u (by simp [hu])
    simp [vectorize_sequences, vectorize_row_eq dimension s hs, ih hrest]

theorem vectorize_sequences_eq_none (sequences : List (List Nat)) (dimension : Nat)
    (h : ∃ s ∈ sequences, ∃ t ∈ s, dimension ≤ t) :
    vectorize_sequences sequences dimension = none := by
  induction sequences with
  | nil => rcases h with ⟨s, hs, _⟩; simp at hs
  | cons s rest ih =>
    rcases h with ⟨u, hu, t, ht, hge⟩
    rcases List.mem_cons.mp hu with rfl | hu2
    · simp [vectorize_sequences, vectorize_row_eq_none dimension u ⟨t, ht, hge⟩]
    · have : vectorize_sequences rest dimension = none := ih ⟨u, hu2, t, ht, hge⟩
      cases hv : vectorize_row dimension s <;>
        simp [vectorize_sequences, hv, this]

theorem vectorize_sequences_append (s1 s2 : List (List Nat)) (dimension : Nat) :
    vectorize_sequences (s1 ++ s2) dimension =
      (vectorize_sequences s1 dimension).bind fun m1 =>
        (vectorize_sequences s2 dimension).map fun m2 => m1 ++ m2 := by
  induction s1 with
  | nil =>
    cases hv : vectorize_sequences s2 dimension <;> simp [vectorize_sequences, hv]
  | cons s rest ih =>
    cases hr : vectorize_row dimension s
    · simp [vectorize_sequences, hr]
    · cases h1 : vectorize_sequences rest dimension <;>
        cases h2 : vectorize_sequences s2 dimension <;>
          simp [vectorize_sequences, hr, ih, h1, h2]

/-- C1: on a list of reviews whose token indices all lie below 10000,
`vectorize_sequences` returns an N x 10000 matrix with entries restricted
to 0 and 1, and entry (i, j) equals 1 exactly when word-index j occurs in
review i. -/
theorem claim_C1_vectorize_multi_hot (sequences : List (List Nat))
    (h : ∀ s ∈ sequences, ∀ t ∈ s, t < 10000) :
    ∃ M, vectorize_sequences sequences 10000 = some M ∧
      M.length = sequences.length ∧
      (∀ row ∈ M, row.length = 10000 ∧ ∀ x ∈ row, x = 0 ∨ x = 1) ∧
      (∀ i j, i < sequences.length → j < 10000 →
        ((M.getD i []).getD j 0 = 1 ↔ j ∈ sequences.getD i [])) := by
  refine ⟨sequences.map (multiHotSpec 10000),
    vectorize_sequences_eq sequences 10000 h, by simp, ?_, ?_⟩
  · intro row hrow
    rcases List.mem_map.mp hrow with ⟨s, _, rfl⟩
    refine ⟨multiHotSpec_length 10000 s, ?_⟩
    intro x hx
    rcases List.mem_map.mp hx with ⟨j, _, rfl⟩
    by_cases hj : j ∈ s <;> simp [hj]
  · intro i j hi hj
    have hgetrow : (sequences.map (multiHotSpec 10000)).getD i [] =
        multiHotSpec 10000 (sequences.getD i []) := by
      rw [List.getD_eq_getElem _ _ (by simpa using hi),
          List.getD_eq_getElem _ _ hi, List.getElem_map]
    rw [hgetrow]
    have hjlen : j < (multiHotSpec 10000 (sequences.getD i [])).length := by
      rw [multiHotSpec_length]; exact hj
    rw [List.getD_eq_getElem _ _ hjlen, multiHotSpec_getElem]
    by_cases hmem : j ∈ sequences.getD i [] <;> simp [hmem]

/-- Closed instance of C1 at a concrete pair of reviews. -/
theorem claim_C1_vectorize_multi_hot_witness :
    ∃ M, vectorize_sequences [[1, 2], [0]] 10000 = some M ∧
      M.length = 2 ∧
      (∀ row ∈ M, row.length = 10000 ∧ ∀ x ∈ row, x = 0 ∨ x = 1) ∧
      (∀ i j, i < 2 → j < 10000 →
        ((M.getD i []).getD j 0 = 1 ↔ j ∈ [[1, 2], [0]].getD i [])) :=
  claim_C1_vectorize_multi_hot [[1, 2], [0]] (by decide)

/-- C4: the multi-hot encoding discards order and repetition: permuting a
review's tokens, or removing duplicate tokens, leaves the vectorized row
unchanged. -/
theorem claim_C4_vectorize_order_free (dimension : Nat) (s1 s2 : List Nat)
    (hperm : s1.Perm s2) :
    vectorize_sequences [s1] dimension = vectorize_sequences [s2] dimension ∧
    vectorize_sequences [s1.dedup] dimension = vectorize_sequences [s1] dimension := by
  constructor
  · have : vectorize_row dimension s1 = vectorize_row dimension s2 :=
      vectorize_row_congr dimension s1 s2 (fun t => hperm.mem_iff)
    simp [vectorize_sequences, this]
  · have : vectorize_row dimension s1.dedup = vectorize_row dimension s1 :=
      vectorize_row_congr dimension s1.dedup s1 (fun t => List.mem_dedup)
    simp [vectorize_sequences, this]

/-- Closed instance of C4 at a concrete permuted pair. -/
theorem claim_C4_vectorize_order_free_witness :
    vectorize_sequences [[1, 2, 1]] 5 = vectorize_sequences [[2, 1, 1]] 5 ∧
    vectorize_sequences [[1, 2, 1].dedup] 5 = vectorize_sequences [[1, 2, 1]] 5 :=
  claim_C4_vectorize_order_free 5 [1, 2, 1] [2, 1, 1] (by decide)

/-- C9: `vectorize_sequences` is total exactly on in-range inputs: when
every token index is below the dimension the call returns a matrix, and
there is an input holding an out-of-range token index on which the call
fails instead of returning a matrix. -/
theorem claim_C9_vectorize_in_range_safety (dimension : Nat)
    (sequences : List (List Nat))
    (h : ∀ s ∈ sequences, ∀ t ∈ s, t < dimension) :
    (vectorize_sequences sequences dimension).isSome ∧
    ∃ bad : List (List Nat), (∃ s ∈ bad, ∃ t ∈ s, dimension ≤ t) ∧
      vectorize_sequences bad dimension = none := by
  constructor
  · rw [vectorize_sequences_eq sequences dimension h]
    simp
  · refine ⟨[[dimension]], ⟨[dimension], by simp, dimension, by simp, le_refl _⟩, ?_⟩
    exact vectorize_sequences_eq_none _ _
      ⟨[dimension], by simp, dimension, by simp, le_refl _⟩

/-- Closed instance of C9 at dimension 4. -/
theorem claim_C9_vectorize_in_range_safety_witness :
    (vectorize_sequences [[1, 3]] 4).isSome ∧
    ∃ bad : List (List Nat), (∃ s ∈ bad, ∃ t ∈ s, 4 ≤ t) ∧
      vectorize_sequences bad 4 = none :=
  claim_C9_vectorize_in_range_safety 4 [[1, 3]] (by decide)

/-- C10: `vectorize_sequences` is row-local: vectorizing a concatenation of
two review lists equals stacking the vectorization of the first above the
vectorization of the second. -/
theorem claim_C10_vectorize_row_local (s1 s2 : List (List Nat)) (dimension : Nat) :
    vectorize_sequences (s1 ++ s2) dimension =
      (vectorize_sequences s1 dimension).bind fun m1 =>
        (vectorize_sequences s2 dimension).map fun m2 => m1 ++ m2 :=
  vectorize_sequences_append s1 s2 dimension

/-- Modelled from the spec: the external library function
`sequence.pad_sequences` (called with its defaults in the notebooks) is not
part of this repository; the spec fixes its contract as producing a
sequence of exactly `maxlen` integers, left-padding a short review with the
sentinel value 0 and truncating a long review from the start. -/
def pad_one (maxlen : Nat) (s : List Int) : List Int :=
  if maxlen ≤ s.length then s.drop (s.length - maxlen)
  else List.replicate (maxlen - s.length) 0 ++ s

/-- Modelled from the spec: `pad_sequences` applies the per-review
padding/truncation to every review in the batch. -/
def pad_sequences (sequences : List (List Int)) (maxlen : Nat) : List (List Int) :=
  sequences.map (pad_one maxlen)

theorem pad_one_length (maxlen : Nat) (s : List Int) :
    (pad_one maxlen s).length = maxlen := by
  unfold pad_one
  split
  · simp; omega
  · simp; omega

theorem pad_one_of_le (maxlen : Nat) (s : List Int) (h : s.length ≤ maxlen) :
    pad_one maxlen s = List.replicate (maxlen - s.length) 0 ++ s := by
  unfold pad_one
  split
  · have hlen : s.length = maxlen := le_antisymm h (by omega)
    simp [hlen]
  · rfl

theorem pad_one_of_ge (maxlen : Nat) (s : List Int) (h : maxlen ≤ s.length) :
    pad_one maxlen s = s.drop (s.length - maxlen) := by
  unfold pad_one
  split
  · rfl
  · omega

/-- C2: padding/truncating a review to length L yields exactly L integers;
a short review is left-padded with the sentinel 0, a long review is
truncated from the start, and in both cases the retained original tokens
keep their relative order (the retained part is a contiguous suffix of the
original review, kept verbatim). -/
theorem claim_C2_pad_to_length (L : Nat) (s : List Int) :
    (pad_one L s).length = L ∧
    (s.length ≤ L → pad_one L s = List.replicate (L - s.length) 0 ++ s) ∧
    (L ≤ s.length → pad_one L s = s.drop (s.length - L)) :=
  ⟨pad_one_length L s, pad_one_of_le L s, pad_one_of_ge L s⟩

/-- Closed instance of C2 at a short review and a long review. -/
theorem claim_C2_pad_to_length_witness :
    (pad_one 4 ([5, 6] : List Int)).length = 4 ∧
    pad_one 4 ([5, 6] : List Int) = List.replicate 2 0 ++ [5, 6] ∧
    pad_one 2 ([5, 6, 7] : List Int) = [5, 6, 7].drop 1 :=
  ⟨(claim_C2_pad_to_length 4 [5, 6]).1,
   (claim_C2_pad_to_length 4 [5, 6]).2.1 (by decide),
   (claim_C2_pad_to_length 2 [5, 6, 7]).2.2 (by decide)⟩

/-- Modelled from the spec: the external `Embedding` layer is a table
mapping each integer token index to a learned dense vector; applied to a
batch it replaces every token of every sequence by its vector. -/
def embedding_forward (table : Nat → List ℚ) (batch : List (List Int)) :
    List (List (List ℚ)) :=
  batch.map fun seq => seq.map fun t => table t.toNat

/-- C6: in the embedding pipeline with sequences padded/truncated to
length 20 and embedding width 8, a batch of N reviews yields an input
tensor of shape (N, 20) before the embedding lookup and an output tensor
of shape (N, 20, 8) after it. -/
theorem claim_C6_embedding_shapes (xs : List (List Int)) (table : Nat → List ℚ)
    (hw : ∀ t, (table t).length = 8) :
    (pad_sequences xs 20).length = xs.length ∧
    (∀ row ∈ pad_sequences xs 20, row.length = 20) ∧
    (embedding_forward table (pad_sequences xs 20)).length = xs.length ∧
    (∀ m ∈ embedding_forward table (pad_sequences xs 20),
      m.length = 20 ∧ ∀ v ∈ m, v.length = 8) := by
  refine ⟨by simp [pad_sequences], ?_, by simp [embedding_forward, pad_sequences], ?_⟩
  · intro row hrow
    rcases List.mem_map.mp hrow with ⟨s, _, rfl⟩
    exact pad_one_length 20 s
  · intro m hm
    rcases List.mem_map.mp hm with ⟨row, hrow, rfl⟩
    rcases List.mem_map.mp hrow with ⟨s, _, rfl⟩
    refine ⟨by simpa using pad_one_length 20 s, ?_⟩
    intro v hv
    rcases List.mem_map.mp hv with ⟨t, _, rfl⟩
    exact hw t.toNat

/-- Closed instance of C6 at a concrete batch and a constant-width table. -/
theorem claim_C6_embedding_shapes_witness :
    (pad_sequences [[1, 2, 3]] 20).length = 1 ∧
    (∀ row ∈ pad_sequences [[1, 2, 3]] 20, row.length = 20) ∧
    (embedding_forward (fun _ => List.replicate 8 0) (pad_sequences [[1, 2, 3]] 20)).length = 1 ∧
    (∀ m ∈ embedding_forward (fun _ => List.replicate 8 0) (pad_sequences [[1, 2, 3]] 20),
      m.length = 20 ∧ ∀ v ∈ m, v.length = 8) :=
  claim_C6_embedding_shapes [[1, 2, 3]] (fun _ => List.replicate 8 0)
    (fun _ => by simp)

/-- Layer activation names used by the notebooks' model configurations. -/
inductive Activation
  | relu
  | sigmoid
  | tanh

/-- One dense-layer descriptor of a model configuration: width and
activation, as in `layers.Dense(16, activation=relu)`. -/
structure DenseLayer where
  units : Nat
  activation : Activation

/-- The 16-16-1 layer stack built in the classification notebook. -/
def model_16_16_1 : List DenseLayer :=
  [⟨16, Activation.relu⟩, ⟨16, Activation.relu⟩, ⟨1, Activation.sigmoid⟩]

/-- The four scalar metrics the external library reports for one epoch. -/
structure EpochMetrics where
  loss : ℚ
  acc : ℚ
  val_loss : ℚ
  val_acc : ℚ

/-- The training history mapping: per-epoch series for training loss,
training accuracy, validation loss and validation accuracy. -/
structure TrainingHistory where
  loss : List ℚ
  acc : List ℚ
  val_loss : List ℚ
  val_acc : List ℚ

/-- Modelled from the spec: the external library's `model.fit` operation is
not part of this repository.  Per the spec and the instructor traceback
recorded in the notebook, it first checks that the feature and target
arrays have the same number of samples (raising a ValueError otherwise,
likewise for a supplied validation pair), then runs the stated number of
epochs and records one scalar per epoch for each metric.  The numeric
values themselves are produced by the external training engine, abstracted
here as `engine`. -/
def fit (layers : List DenseLayer) (engine : Nat → EpochMetrics)
    (x : List (List ℚ)) (y : List ℚ) (epochs batch_size : Nat)
    (validation_data : Option (List (List ℚ) × List ℚ)) :
    Except String TrainingHistory :=
  if x.length ≠ y.length then
    Except.error "Input arrays should have the same number of samples as target arrays."
  else
    match validation_data with
    | some (xv, yv) =>
      if xv.length ≠ yv.length then
        Except.error "Input arrays should have the same number of samples as target arrays."
      else
        Except.ok ⟨(List.range epochs).map fun e => (engine e).loss,
                   (List.range epochs).map fun e => (engine e).acc,
                   (List.range epochs).map fun e => (engine e).val_loss,
                   (List.range epochs).map fun e => (engine e).val_acc⟩
    | none =>
      Except.ok ⟨(List.range epochs).map fun e => (engine e).loss,
                 (List.range epochs).map fun e => (engine e).acc, [], []⟩

/-- Modelled from the spec: constructing a validation pair by holding out
the first `k` examples keeps features and labels co-indexed, unlike the
instructor cell that split only the feature array. -/
def hold_out_split (k : Nat) (x : List (List ℚ)) (y : List ℚ) :
    (List (List ℚ) × List ℚ) × (List (List ℚ) × List ℚ) :=
  ((x.take k, y.take k), (x.drop k, y.drop k))

/-- C3: a fit call whose feature and label arrays have different example
counts fails with an error rather than training, and a validation pair
built from a held-out split of co-indexed features and labels keeps equal
example counts in both the held-out pair and the remaining pair. -/
theorem claim_C3_fit_length_check (layers : List DenseLayer)
    (engine : Nat → EpochMetrics) (x : List (List ℚ)) (y : List ℚ)
    (epochs batch_size : Nat) (validation_data : Option (List (List ℚ) × List ℚ))
    (h : x.length ≠ y.length) :
    (∃ msg, fit layers engine x y epochs batch_size validation_data =
      Except.error msg) ∧
    (∀ (k : Nat) (x2 : List (List ℚ)) (y2 : List ℚ), x2.length = y2.length →
      (hold_out_split k x2 y2).1.1.length = (hold_out_split k x2 y2).1.2.length ∧
      (hold_out_split k x2 y2).2.1.length = (hold_out_split k x2 y2).2.2.length) := by
  constructor
  · refine ⟨"Input arrays should have the same number of samples as target arrays.", ?_⟩
    simp [fit, h]
  · intro k x2 y2 hlen
    simp [hold_out_split, hlen]

/-- Closed instance of C3 at the shapes of the instructor cell: 25000
feature rows against a 10000-row target. -/
theorem claim_C3_fit_length_check_witness :
    (∃ msg, fit model_16_16_1 (fun _ => ⟨0, 0, 0, 0⟩)
      (List.replicate 25000 []) (List.replicate 10000 0) 20 512 none =
      Except.error msg) ∧
    (∀ (k : Nat) (x2 : List (List ℚ)) (y2 : List ℚ), x2.length = y2.length →
      (hold_out_split k x2 y2).1.1.length = (hold_out_split k x2 y2).1.2.length ∧
      (hold_out_split k x2 y2).2.1.length = (hold_out_split k x2 y2).2.2.length) :=
  claim_C3_fit_length_check model_16_16_1 (fun _ => ⟨0, 0, 0, 0⟩)
    (List.replicate 25000 []) (List.replicate 10000 0) 20 512 none
    (by simp only [List.length_replicate]; decide)

/-- C5: fitting the 16-16-1 stack for 4 epochs at batch size 512 on the
25000-example multi-hot split with a validation set supplied completes and
returns a history holding exactly 4 scalars for each of training loss,
training accuracy, validation loss and validation accuracy. -/
theorem claim_C5_four_epoch_history (engine : Nat → EpochMetrics)
    (x : List (List ℚ)) (y : List ℚ) (xv : List (List ℚ)) (yv : List ℚ)
    (hx : x.length = 25000) (hy : y.length = 25000)
    (hmh : ∀ row ∈ x, ∀ v ∈ row, v = 0 ∨ v = 1)
    (hval : xv.length = yv.length) :
    ∃ hist, fit model_16_16_1 engine x y 4 512 (some (xv, yv)) =
        Except.ok hist ∧
      hist.loss.length = 4 ∧ hist.acc.length = 4 ∧
      hist.val_loss.length = 4 ∧ hist.val_acc.length = 4 := by
  refine ⟨⟨(List.range 4).map fun e => (engine e).loss,
           (List.range 4).map fun e => (engine e).acc,
           (List.range 4).map fun e => (engine e).val_loss,
           (List.range 4).map fun e => (engine e).val_acc⟩,
    ?_, by simp, by simp, by simp, by simp⟩
  simp [fit, hx, hy, hval]

/-- Closed instance of C5 at a concrete 25000-row multi-hot split. -/
theorem claim_C5_four_epoch_history_witness :
    ∃ hist, fit model_16_16_1 (fun _ => ⟨0, 0, 0, 0⟩)
        (List.replicate 25000 (List.replicate 10000 0))
        (List.replicate 25000 0) 4 512 (some ([], [])) =
        Except.ok hist ∧
      hist.loss.length = 4 ∧ hist.acc.length = 4 ∧
      hist.val_loss.length = 4 ∧ hist.val_acc.length = 4 :=
  claim_C5_four_epoch_history (fun _ => ⟨0, 0, 0, 0⟩)
    (List.replicate 25000 (List.replicate 10000 0)) (List.replicate 25000 0)
    [] [] (by rw [List.length_replicate]) (by rw [List.length_replicate])
    (fun row hrow v hv => Or.inl (by
      have hrow0 : row = List.replicate 10000 0 := List.eq_of_mem_replicate hrow
      exact List.eq_of_mem_replicate (hrow0 ▸ hv)))
    rfl

/-- The pre-built, pre-split corpus that the external dataset source holds:
training and test instances, each a review (list of word-rank indices)
paired 1:1 with its label. -/
structure RawCorpus where
  train : List (List Nat × Nat)
  test : List (List Nat × Nat)

/-- Modelled from the spec: the vocabulary limit that `imdb.load_data`
applies when called with `num_words`; word-rank indices at or above the
bound are replaced by the out-of-vocabulary sentinel index 2, so every
token index of the loaded data lies below the bound. -/
def limit_vocab (num_words : Nat) (s : List Nat) : List Nat :=
  s.map fun t => if t < num_words then t else 2

/-- Modelled from the spec: `imdb.load_data` is external library code; it
returns the fixed pre-split corpus with the `num_words` vocabulary limit
applied to every review, keeping each review paired with its label. -/
def imdb_load_data (num_words : Nat) (corpus : RawCorpus) : RawCorpus :=
  ⟨corpus.train.map fun p => (limit_vocab num_words p.1, p.2),
   corpus.test.map fun p => (limit_vocab num_words p.1, p.2)⟩

theorem limit_vocab_lt (num_words : Nat) (h2 : 2 < num_words) (s : List Nat) :
    ∀ t ∈ limit_vocab num_words s, t < num_words := by
  intro t ht
  rcases List.mem_map.mp ht with ⟨u, _, rfl⟩
  split
  · assumption
  · exact h2

/-- C8: loading the pre-split corpus with the 10000-word vocabulary limit
returns exactly 25000 training and 25000 test instances, each review still
paired 1:1 with a binary label in 0, 1, and with every token index of
every loaded review below the 10000-entry vocabulary bound. -/
theorem claim_C8_load_data_shape (corpus : RawCorpus)
    (htr : corpus.train.length = 25000) (hte : corpus.test.length = 25000)
    (hlab : ∀ p ∈ corpus.train ++ corpus.test, p.2 = 0 ∨ p.2 = 1) :
    (imdb_load_data 10000 corpus).train.length = 25000 ∧
    (imdb_load_data 10000 corpus).test.length = 25000 ∧
    (∀ p ∈ (imdb_load_data 10000 corpus).train ++ (imdb_load_data 10000 corpus).test,
      p.2 = 0 ∨ p.2 = 1) ∧
    (∀ p ∈ (imdb_load_data 10000 corpus).train ++ (imdb_load_data 10000 corpus).test,
      ∀ t ∈ p.1, t < 10000) := by
  refine ⟨by simp [imdb_load_data, htr], by simp [imdb_load_data, hte], ?_, ?_⟩
  · intro p hp
    rcases List.mem_append.mp hp with hp2 | hp2 <;>
      rcases List.mem_map.mp hp2 with ⟨q, hq, rfl⟩
    · exact hlab q (List.mem_append.mpr (Or.inl hq))
    · exact hlab q (List.mem_append.mpr (Or.inr hq))
  · intro p hp
    rcases List.mem_append.mp hp with hp2 | hp2 <;>
      rcases List.mem_map.mp hp2 with ⟨q, hq, rfl⟩ <;>
      exact limit_vocab_lt 10000 (by decide) q.1

/-- Closed instance of C8 at a concrete 25000/25000 corpus. -/
theorem claim_C8_load_data_shape_witness :
    (imdb_load_data 10000 ⟨List.replicate 25000 ([3], 0),
        List.replicate 25000 ([3], 1)⟩).train.length = 25000 ∧
    (imdb_load_data 10000 ⟨List.replicate 25000 ([3], 0),
        List.replicate 25000 ([3], 1)⟩).test.length = 25000 ∧
    (∀ p ∈ (imdb_load_data 10000 ⟨List.replicate 25000 ([3], 0),
          List.replicate 25000 ([3], 1)⟩).train ++
        (imdb_load_data 10000 ⟨List.replicate 25000 ([3], 0),
          List.replicate 25000 ([3], 1)⟩).test,
      p.2 = 0 ∨ p.2 = 1) ∧
    (∀ p ∈ (imdb_load_data 10000 ⟨List.replicate 25000 ([3], 0),
          List.replicate 25000 ([3], 1)⟩).train ++
        (imdb_load_data 10000 ⟨List.replicate 25000 ([3], 0),
          List.replicate 25000 ([3], 1)⟩).test,
      ∀ t ∈ p.1, t < 10000) :=
  claim_C8_load_data_shape ⟨List.replicate 25000 ([3], 0), List.replicate 25000 ([3], 1)⟩
    (by rw [List.length_replicate]) (by rw [List.length_replicate])
    (fun p hp => by
      rcases List.mem_append.mp hp with hp2 | hp2
      · exact Or.inl (congrArg Prod.snd (List.eq_of_mem_replicate hp2))
      · exact Or.inr (congrArg Prod.snd (List.eq_of_mem_replicate hp2)))
